/-
Verification of the trust-and-integrity subsystem of Terminal-Decorator
(src/security_manager.py): content-hashed backup/restore (BackupManager),
path and command policies and the sandbox runner (SandboxManager).

The Python code is shallowly embedded: the filesystem is an explicit state
(association lists of paths to files and of sidecar paths to parsed metadata
records), file contents are byte lists, and the SHA-256 digest is an abstract
parameter `dg : List Nat → Nat` (every theorem below holds for an arbitrary
digest function; the code only ever compares digests for equality).
Host-dependent facts (which paths exist, how a path resolves, which
filesystem a path lives on, the process uid) are likewise explicit parameters.
-/
import Mathlib

/-! ## String and character helpers (Python `str` operations used by the code) -/

/-- Whitespace characters stripped by Python `str.strip()` (ASCII range). -/
def isPySpace (c : Char) : Bool :=
  c == ' ' || c == '\t' || c == '\n' || c == '\r' || c == '\x0b' || c == '\x0c'

/-- Python `str.strip()`: remove leading and trailing whitespace. -/
def pyStrip (s : String) : String :=
  ⟨((s.data.dropWhile isPySpace).reverse.dropWhile isPySpace).reverse⟩

/-- Python `str.lower()` (ASCII letters; all strings the code compares are ASCII). -/
def pyLower (s : String) : String :=
  ⟨s.data.map Char.toLower⟩

/-- Boolean test that the first list is a leading segment of the second. -/
def startsList : List Char → List Char → Bool
  | [], _ => true
  | _ :: _, [] => false
  | a :: as, b :: bs => a == b && startsList as bs

/-- Boolean test that the first list is a trailing segment of the second. -/
def endsList (s l : List Char) : Bool :=
  startsList s.reverse l.reverse

/-- Python substring test `needle in hay` on character lists. -/
def containsList (needle : List Char) : List Char → Bool
  | [] => needle.isEmpty
  | c :: rest => startsList needle (c :: rest) || containsList needle rest

/-- Characters other than the path separator. -/
def notSlash (c : Char) : Bool := !(c == '/')

/-- Characters of the final path component (Python `Path(p).name`). -/
def lastNameChars (l : List Char) : List Char :=
  (l.reverse.takeWhile notSlash).reverse

/-- Characters of the directory part, separator included. -/
def dirChars (l : List Char) : List Char :=
  (l.reverse.dropWhile notSlash).reverse

/-- Python `Path(p).name` as a string. -/
def strName (p : String) : String := ⟨lastNameChars p.data⟩

/-- Python `':'.join(l)`. -/
def joinColon : List String → String
  | [] => ""
  | [x] => x
  | x :: xs => x ++ ":" ++ joinColon xs

/-- Python `Path(p).with_suffix('.meta')`: drop the final extension of the last
component (a lone leading dot is not an extension) and append `.meta`. -/
def replaceSuffixMeta (p : String) : String :=
  let d := dirChars p.data
  let n := lastNameChars p.data
  let afterDot := n.reverse.takeWhile (fun c => !(c == '.'))
  let stem := if afterDot.length + 1 < n.length
              then (n.reverse.drop (afterDot.length + 1)).reverse
              else n
  ⟨d ++ stem ++ ".meta".data⟩

/-! ## SandboxManager: command policy, path policy, environment, runner -/

/-- SandboxManager._get_restricted_commands (src/security_manager.py:224). -/
def restricted_commands : List String :=
  ["rm -rf /", "chmod -R 777", "dd if=/dev/zero", ":()\x7b :|:& \x7d;:",
   "> /dev/sda", "mkfs", "fdisk", "mkswap", "sudo rm", "sudo chmod", "sudo chown"]

/-- SandboxManager.is_command_safe (src/security_manager.py:251):
`command = command.strip().lower()` then reject if any restricted entry is a
substring. -/
def is_command_safe (command : String) : Bool :=
  let c := pyLower (pyStrip command)
  !(restricted_commands.any (fun r => containsList r.data c.data))

/-- SandboxManager._get_allowed_paths (src/security_manager.py:212), with the
home directory as a parameter. -/
def get_allowed_paths (home : String) : List String :=
  [home, home ++ "/.terminal_decorator", home ++ "/.config",
   home ++ "/.local/share", "/tmp", "/var/tmp"]

/-- SandboxManager.is_path_allowed (src/security_manager.py:240):
`path = path.resolve()` (modelled by the host-dependent `resolve`, `none`
meaning the call raised), then `str(path).startswith(str(allowed_path))` over
the allowed set; any exception yields `False`. -/
def is_path_allowed (resolve : String → Option String)
    (allowedPaths : List String) (path : String) : Bool :=
  match resolve path with
  | none => false
  | some rp => allowedPaths.any (fun a => startsList a.data rp.data)

/-- Modelled from the spec: "equal to, or nested under, any root" — the
spec-side containment test that C6 describes, kept separate from the
source-side `is_path_allowed` for comparison. -/
def spec_nested_under (root p : String) : Bool :=
  p == root || startsList (root ++ "/").data p.data

/-- Environment variables forwarded by _get_safe_environment
(src/security_manager.py:190); the Python set literal, as a list. -/
def allowed_env_vars : List String :=
  ["HOME", "USER", "SHELL", "PATH", "TERM", "LANG",
   "LC_ALL", "EDITOR", "VISUAL", "DISPLAY"]

/-- The fixed PATH entries of _get_safe_environment (src/security_manager.py:200). -/
def safe_paths : List String :=
  ["/usr/local/bin", "/usr/bin", "/bin", "/usr/local/sbin", "/usr/sbin", "/sbin"]

/-- Lookup in an environment dictionary (first binding wins; keys are unique). -/
def envLookup : List (String × String) → String → Option String
  | [], _ => none
  | kv :: rest, k => if kv.1 == k then some kv.2 else envLookup rest k

/-- Python dict assignment `env[k] = v` on an association list. -/
def envSet : List (String × String) → String → String → List (String × String)
  | [], k, v => [(k, v)]
  | kv :: rest, k, v => if kv.1 == k then (k, v) :: rest else kv :: envSet rest k v

/-- SandboxManager._get_safe_environment (src/security_manager.py:187):
forward each allow-listed variable present in the parent environment, then
overwrite PATH with the safe directories that exist on the host.  The Python
set iteration order is arbitrary; as the keys are distinct the resulting
dictionary is order-independent, so a fixed order is used here. -/
def get_safe_environment (parent : String → Option String)
    (pathExists : String → Bool) : List (String × String) :=
  let fwd := allowed_env_vars.filterMap (fun v => (parent v).map (fun x => (v, x)))
  envSet fwd "PATH" (joinColon (safe_paths.filter pathExists))

/-- Outcome of SandboxManager.run_sandboxed: either the SecurityError raised
before anything is created, or a child process spawned with the given
environment and working directory (the only constructor that models process
creation). -/
inductive SandboxOutcome
  | securityError (message : String)
  | completed (childEnv : List (String × String)) (cwd : String)
deriving DecidableEq

/-- SandboxManager.run_sandboxed (src/security_manager.py:259): the command
policy is checked first and raises SecurityError; otherwise the sanitized
environment (built at context creation from the parent environment) is
extended with SANDBOX_DIR and the command is spawned in the ephemeral
sandbox directory. -/
def run_sandboxed (parent : String → Option String) (pathExists : String → Bool)
    (sandboxDir : String) (command : String) : SandboxOutcome :=
  if is_command_safe command then
    let env := envSet (get_safe_environment parent pathExists) "SANDBOX_DIR" sandboxDir
    .completed env sandboxDir
  else
    .securityError ("Command not allowed: " ++ command)

/-! ## Filesystem state for BackupManager

The filesystem is a pair of association lists: regular files (path to byte
content, mode bits, owner, modification time) and sidecar metadata files
(path to the parsed JSON record).  Keys are unique; the first binding wins. -/

/-- A regular file: bytes, `st_mode`, owner name, `st_mtime`. -/
structure FSFile where
  content : List Nat
  mode : Nat
  owner : String
  mtime : Nat
deriving DecidableEq

/-- The parsed sidecar record written by create_backup
(src/security_manager.py:70). -/
structure Metadata where
  original_path : String
  timestamp : String
  hash : Nat
  permissions : Nat
  owner : String
deriving DecidableEq

/-- Filesystem state: regular files and sidecar metadata files. -/
structure FS where
  files : List (String × FSFile)
  metas : List (String × Metadata)
deriving DecidableEq

/-- First binding for a path among the regular files. -/
def lookupFile : List (String × FSFile) → String → Option FSFile
  | [], _ => none
  | e :: rest, p => if e.1 == p then some e.2 else lookupFile rest p

/-- First binding for a path among the metadata files. -/
def lookupMeta : List (String × Metadata) → String → Option Metadata
  | [], _ => none
  | e :: rest, p => if e.1 == p then some e.2 else lookupMeta rest p

/-- Read a regular file. -/
def FS.getFile (fs : FS) (p : String) : Option FSFile := lookupFile fs.files p

/-- Create or overwrite a regular file. -/
def FS.setFile (fs : FS) (p : String) (f : FSFile) : FS :=
  ⟨(p, f) :: fs.files.filter (fun e => !(e.1 == p)), fs.metas⟩

/-- Delete a regular file (`os.unlink` / the removal half of a move). -/
def FS.removeFile (fs : FS) (p : String) : FS :=
  ⟨fs.files.filter (fun e => !(e.1 == p)), fs.metas⟩

/-- Read a sidecar metadata file. -/
def FS.getMeta (fs : FS) (p : String) : Option Metadata := lookupMeta fs.metas p

/-- Create or overwrite a sidecar metadata file. -/
def FS.setMeta (fs : FS) (p : String) (m : Metadata) : FS :=
  ⟨fs.files, (p, m) :: fs.metas.filter (fun e => !(e.1 == p))⟩

/-- Membership of a path in a directory: the directory part of the path is
exactly `d ++ "/"` (immediate children only, as for `Path.glob`). -/
def inDir (d p : String) : Bool :=
  dirChars p.data == (d ++ "/").data

/-- The entries of a directory, in filesystem iteration order. -/
def dirEntries (fs : FS) (d : String) : List (String × FSFile) :=
  fs.files.filter (fun e => inDir d e.1)

/-! ## BackupManager -/

/-- The glob pattern `f"\x7bname\x7d_*.bak"` applied to a file name
(src/security_manager.py:95): `name ++ "_"` leads, `.bak` trails, and the
two parts do not overlap. -/
def globMatch (name entry : String) : Bool :=
  startsList (name ++ "_").data entry.data &&
  endsList ".bak".data entry.data &&
  decide ((name ++ "_").length + 4 ≤ entry.length)

/-- BackupManager.create_backup (src/security_manager.py:54), for a digest
function `dg` and a formatted timestamp (the code's
`datetime.now().strftime('%Y%m%d_%H%M%S')`).  Returns the backup path (None
when the source file does not exist) and the updated filesystem.  The Python
default for `category` is `"shell_configs"`.  The sidecar stores the last
three octal digits of the mode, i.e. `mode % 512`. -/
def create_backup (dg : List Nat → Nat) (backupDir timestamp : String)
    (fs : FS) (filePath : String) (category : String) : Option String × FS :=
  match fs.getFile filePath with
  | none => (none, fs)
  | some f =>
    let backupName := strName filePath ++ "_" ++ timestamp ++ ".bak"
    let bp := backupDir ++ "/" ++ category ++ "/" ++ backupName
    let fs1 := fs.setFile bp f
    let md : Metadata := ⟨filePath, timestamp, dg f.content, f.mode % 512, f.owner⟩
    let fs2 := fs1.setMeta (replaceSuffixMeta bp) md
    (some bp, fs2)

/-- Python `max(backups, key=lambda p: p.stat().st_mtime)`: the first entry
with the greatest mtime (ties keep the earlier entry), `none` on the empty
list. -/
def pickLatest (l : List (String × FSFile)) : Option (String × FSFile) :=
  match l with
  | [] => none
  | x :: xs => some (xs.foldl (fun best y => if best.2.mtime < y.2.mtime then y else best) x)

/-- The record-less selection of restore_backup (src/security_manager.py:92):
one category chosen by whether `'rc'` occurs in the target's name, then the
glob-matching entry of that directory with the greatest mtime. -/
def selectBackupPath (backupDir : String) (fs : FS) (originalPath : String) :
    Option String :=
  let category := if containsList "rc".data (lastNameChars originalPath.data)
                  then "shell_configs" else "system_configs"
  let dir := backupDir ++ "/" ++ category
  let cands := (dirEntries fs dir).filter
    (fun e => globMatch (strName originalPath) (strName e.1))
  (pickLatest cands).map (fun e => e.1)

/-- The backup path restore_backup actually operates on: the explicit
argument when given, otherwise the record-less selection. -/
def resolvedBackupPath (backupDir : String) (fs : FS) (originalPath : String)
    (arg : Option String) : Option String :=
  match arg with
  | some bp => some bp
  | none => selectBackupPath backupDir fs originalPath

/-- Result of restore_backup: the returned boolean, the filesystem after the
call, and which instrumented events happened on the way (whether the stored
copy's digest was compared against the recorded one, whether chmod/chown ran
on the staging file, whether the target was replaced, and if so whether
`shutil.move` was an atomic `os.rename` — it is one exactly when the staging
file and the destination are on the same filesystem, and otherwise degrades
to a copy followed by a delete). -/
structure RestoreResult where
  ok : Bool
  fs : FS
  integrityChecked : Bool
  chmodDone : Bool
  chownDone : Bool
  moveHappened : Bool
  movedByRename : Bool
deriving DecidableEq

/-- The staging-and-replace tail of restore_backup
(src/security_manager.py:115): copy the backup to the temporary file
(`tempfile.NamedTemporaryFile`, whose location `tmpName` and filesystem are
host facts), re-verify the copy, apply the recorded permissions (and, when
uid is 0, the recorded owner) when a sidecar exists, then `shutil.move` the
staging file onto the target. -/
def restoreStage (dg : List Nat → Nat) (fsidOf : String → Nat) (uid : Nat)
    (runUser : String) (tmpName : String) (fs : FS) (originalPath : String)
    (b : FSFile) (mdO : Option Metadata) : RestoreResult :=
  let tmp0 : FSFile := ⟨b.content, b.mode, runUser, b.mtime⟩
  let fs1 := fs.setFile tmpName tmp0
  if dg tmp0.content ≠ dg b.content then
    ⟨false, fs, mdO.isSome, false, false, false, false⟩
  else
    match mdO with
    | some md =>
      let t1 : FSFile := ⟨tmp0.content, md.permissions,
                          if uid = 0 then md.owner else tmp0.owner, tmp0.mtime⟩
      let fs2 := fs1.setFile tmpName t1
      let fs3 := (fs2.removeFile tmpName).setFile originalPath t1
      ⟨true, fs3, true, true, decide (uid = 0), true,
       decide (fsidOf tmpName = fsidOf originalPath)⟩
    | none =>
      let fs3 := (fs1.removeFile tmpName).setFile originalPath tmp0
      ⟨true, fs3, false, false, false, true,
       decide (fsidOf tmpName = fsidOf originalPath)⟩

/-- BackupManager.restore_backup (src/security_manager.py:89). -/
def restore_backup (dg : List Nat → Nat) (fsidOf : String → Nat) (uid : Nat)
    (runUser : String) (backupDir tmpName : String) (fs : FS)
    (originalPath : String) (backupArg : Option String) : RestoreResult :=
  match resolvedBackupPath backupDir fs originalPath backupArg with
  | none => ⟨false, fs, false, false, false, false, false⟩
  | some bp =>
    match fs.getFile bp with
    | none => ⟨false, fs, false, false, false, false, false⟩
    | some b =>
      match fs.getMeta (replaceSuffixMeta bp) with
      | some md =>
        if dg b.content ≠ md.hash then ⟨false, fs, true, false, false, false, false⟩
        else restoreStage dg fsidOf uid runUser tmpName fs originalPath b (some md)
      | none => restoreStage dg fsidOf uid runUser tmpName fs originalPath b none

/-! ## list_backups -/

/-- One entry of the list returned by list_backups: the sidecar record plus
the `backup_path` and `size` keys the code adds. -/
structure ListedBackup where
  md : Metadata
  backup_path : String
  size : Nat
deriving DecidableEq

/-- Lexicographic less-or-equal on character lists by code point, as Python
compares strings. -/
def leChars : List Char → List Char → Bool
  | [], _ => true
  | _ :: _, [] => false
  | a :: as, b :: bs =>
    if a.toNat < b.toNat then true
    else if b.toNat < a.toNat then false
    else leChars as bs

/-- Python string comparison `a <= b`. -/
def strLe (a b : String) : Bool := leChars a.data b.data

/-- The sort relation of `sorted(backups, key=lambda x: x['timestamp'],
reverse=True)`: an entry may precede another when its timestamp is greater
or equal. -/
def tsLe (a b : ListedBackup) : Prop := strLe b.md.timestamp a.md.timestamp = true

instance : DecidableRel tsLe := fun a b =>
  inferInstanceAs (Decidable (strLe b.md.timestamp a.md.timestamp = true))

/-- The per-category scan of list_backups (src/security_manager.py:156):
every `*.bak` entry of the category directory whose sidecar exists, filtered
on the recorded original path when a filter is given. -/
def processCategory (fs : FS) (backupDir : String) (filt : Option String)
    (category : String) : List ListedBackup :=
  ((dirEntries fs (backupDir ++ "/" ++ category)).filter
      (fun e => endsList ".bak".data (lastNameChars e.1.data))).filterMap
    (fun e =>
      match fs.getMeta (replaceSuffixMeta e.1) with
      | none => none
      | some md =>
        if (match filt with | none => true | some p => md.original_path == p) then
          some ⟨md, e.1, e.2.content.length⟩
        else none)

/-- BackupManager.list_backups (src/security_manager.py:152): scan
shell_configs then system_configs, then sort by timestamp descending with a
stable sort (Python's `sorted` is stable; a stable insertion sort yields the
identical list). -/
def list_backups (fs : FS) (backupDir : String) (filt : Option String) :
    List ListedBackup :=
  List.insertionSort tsLe
    (processCategory fs backupDir filt "shell_configs" ++
     processCategory fs backupDir filt "system_configs")

/-! ## Concrete scenarios used to witness the theorems -/

/-- A concrete digest function for the scenarios (any function works for the
universally quantified theorems; this one separates the byte lists that the
scenarios distinguish). -/
def dgW : List Nat → Nat := fun l => l.foldl (fun a b => a * 256 + b) 1

/-- A host where `/tmp` (and so the staging file of a restore) lives on a
different filesystem from everything else, as with a tmpfs `/tmp`. -/
def fsidW : String → Nat := fun p => if startsList "/tmp/".data p.data then 1 else 0

/-- Backup store holding one backup of `/home/u/.bashrc` whose stored copy
was altered after creation: the copy's bytes are `[2]` but the sidecar
records the digest of the original bytes `[1]`. -/
def storeTampered : FS :=
  ⟨[("/home/u/.bashrc", ⟨[1], 33188, "u", 100⟩),
    ("/b/shell_configs/.bashrc_20240101_000000.bak", ⟨[2], 33188, "u", 100⟩)],
   [("/b/shell_configs/.bashrc_20240101_000000.meta",
     ⟨"/home/u/.bashrc", "20240101_000000", dgW [1], 420, "u"⟩)]⟩

/-- Backup store holding one intact backup of `/home/u/.bashrc`. -/
def storeIntact : FS :=
  ⟨[("/home/u/.bashrc", ⟨[1], 33188, "u", 100⟩),
    ("/b/shell_configs/.bashrc_20240101_000000.bak", ⟨[2], 33188, "u", 90⟩)],
   [("/b/shell_configs/.bashrc_20240101_000000.meta",
     ⟨"/home/u/.bashrc", "20240101_000000", dgW [2], 420, "u"⟩)]⟩

/-- Backup store holding one backup of `/home/u/.bashrc` whose sidecar is
missing. -/
def storeNoSidecar : FS :=
  ⟨[("/home/u/.bashrc", ⟨[1], 33188, "u", 100⟩),
    ("/b/shell_configs/.bashrc_20240101_000000.bak", ⟨[5], 33188, "u", 90⟩)],
   []⟩

/-- A filesystem with a single target file whose name does not contain
`rc`, and an empty backup store. -/
def storeNotes : FS := ⟨[("/home/u/notes", ⟨[7], 33188, "u", 100⟩)], []⟩

/-- A filesystem with a single target file whose name contains `rc`, and an
empty backup store. -/
def storeBashrc : FS := ⟨[("/home/u/.bashrc", ⟨[3, 4], 33188, "u", 100⟩)], []⟩

/-- Backup store whose only backup of `/home/u/.bashrc` sits in
`system_configs` (as create_backup produces when called with that
category). -/
def storeSystemOnly : FS :=
  ⟨[("/home/u/.bashrc", ⟨[1], 33188, "u", 100⟩),
    ("/b/system_configs/.bashrc_20240102_000000.bak", ⟨[9], 33188, "u", 100⟩)],
   [("/b/system_configs/.bashrc_20240102_000000.meta",
     ⟨"/home/u/.bashrc", "20240102_000000", dgW [9], 420, "u"⟩)]⟩

/-- Backup store with two backups of the same file at distinct timestamps. -/
def storeTwoBackups : FS :=
  ⟨[("/b/system_configs/a_20240101_000000.bak", ⟨[1], 33188, "u", 50⟩),
    ("/b/system_configs/a_20240102_000000.bak", ⟨[2], 33188, "u", 60⟩)],
   [("/b/system_configs/a_20240101_000000.meta",
     ⟨"/h/a", "20240101_000000", dgW [1], 420, "u"⟩),
    ("/b/system_configs/a_20240102_000000.meta",
     ⟨"/h/a", "20240102_000000", dgW [2], 420, "u"⟩)]⟩

/-! ## Helper lemmas -/

@[simp]
theorem data_append (a b : String) : (a ++ b).data = a.data ++ b.data := rfl

theorem startsList_self_append (a b : List Char) : startsList a (a ++ b) = true := by
  induction a with
  | nil => rfl
  | cons c t ih => simp [startsList, ih]

theorem takeWhile_append_all (p : Char → Bool) (l₁ l₂ : List Char)
    (h : l₁.all p = true) : (l₁ ++ l₂).takeWhile p = l₁ ++ l₂.takeWhile p := by
  induction l₁ with
  | nil => simp
  | cons c t ih =>
    simp only [List.all_cons, Bool.and_eq_true] at h
    simp [List.takeWhile_cons, h.1, ih h.2]

theorem dropWhile_append_all (p : Char → Bool) (l₁ l₂ : List Char)
    (h : l₁.all p = true) : (l₁ ++ l₂).dropWhile p = l₂.dropWhile p := by
  induction l₁ with
  | nil => simp
  | cons c t ih =>
    simp only [List.all_cons, Bool.and_eq_true] at h
    simp [List.dropWhile_cons, h.1, ih h.2]

theorem takeWhile_all (p : Char → Bool) (l : List Char) :
    (l.takeWhile p).all p = true := by
  induction l with
  | nil => rfl
  | cons c t ih =>
    cases hpc : p c with
    | true => simp [List.takeWhile_cons, hpc, ih]
    | false => simp [List.takeWhile_cons, hpc]

theorem all_notSlash_lastName (l : List Char) :
    (lastNameChars l).all notSlash = true := by
  unfold lastNameChars
  rw [List.all_reverse]
  exact takeWhile_all _ _

theorem lastNameChars_append (d : String) (n : List Char)
    (hn : n.all notSlash = true) :
    lastNameChars ((d ++ "/").data ++ n) = n := by
  unfold lastNameChars
  rw [List.reverse_append]
  have h1 : ((d ++ "/").data).reverse = '/' :: d.data.reverse := by
    simp
  rw [h1, takeWhile_append_all _ _ _ (by rw [List.all_reverse]; exact hn)]
  simp [List.takeWhile_cons, notSlash]

theorem dirChars_append (d : String) (n : List Char)
    (hn : n.all notSlash = true) :
    dirChars ((d ++ "/").data ++ n) = (d ++ "/").data := by
  unfold dirChars
  rw [List.reverse_append]
  have h1 : ((d ++ "/").data).reverse = '/' :: d.data.reverse := by
    simp
  rw [h1, dropWhile_append_all _ _ _ (by rw [List.all_reverse]; exact hn)]
  simp [List.dropWhile_cons, notSlash]

theorem inDir_append (d n : String) (hn : n.data.all notSlash = true) :
    inDir d (d ++ "/" ++ n) = true := by
  unfold inDir
  have e : (d ++ "/" ++ n).data = (d ++ "/").data ++ n.data := rfl
  rw [e, dirChars_append d n.data hn]
  simp

theorem strName_append (d n : String) (hn : n.data.all notSlash = true) :
    strName (d ++ "/" ++ n) = n := by
  unfold strName
  have e : (d ++ "/" ++ n).data = (d ++ "/").data ++ n.data := rfl
  rw [e, lastNameChars_append d n.data hn]

theorem inDir_append_ne (B c₁ c₂ n : String) (hn : n.data.all notSlash = true)
    (hne : c₁ ≠ c₂) :
    inDir (B ++ "/" ++ c₂) (B ++ "/" ++ c₁ ++ "/" ++ n) = false := by
  unfold inDir
  have e : (B ++ "/" ++ c₁ ++ "/" ++ n).data = ((B ++ "/" ++ c₁) ++ "/").data ++ n.data := rfl
  rw [e, dirChars_append (B ++ "/" ++ c₁) n.data hn]
  simp only [beq_eq_false_iff_ne, ne_eq]
  intro h
  apply hne
  have h1 : (B ++ "/").data ++ (c₁.data ++ ['/']) = (B ++ "/").data ++ (c₂.data ++ ['/']) := by
    have e1 : ((B ++ "/" ++ c₁) ++ "/").data = (B ++ "/").data ++ (c₁.data ++ ['/']) := by
      simp [List.append_assoc]
    have e2 : ((B ++ "/" ++ c₂) ++ "/").data = (B ++ "/").data ++ (c₂.data ++ ['/']) := by
      simp [List.append_assoc]
    rw [← e1, ← e2, h]
  have h2 := List.append_cancel_left h1
  have h3 := List.append_cancel_right h2
  cases c₁
  cases c₂
  exact congrArg String.mk h3

theorem globMatch_self (name ts : String) :
    globMatch name (name ++ "_" ++ ts ++ ".bak") = true := by
  have h1 : startsList (name ++ "_").data ((name ++ "_" ++ ts ++ ".bak").data) = true := by
    have e : (name ++ "_" ++ ts ++ ".bak").data =
        (name ++ "_").data ++ (ts.data ++ ".bak".data) := by
      simp [List.append_assoc]
    rw [e]
    exact startsList_self_append _ _
  have h2 : endsList ".bak".data ((name ++ "_" ++ ts ++ ".bak").data) = true := by
    unfold endsList
    have e : ((name ++ "_" ++ ts ++ ".bak").data).reverse =
        (".bak".data).reverse ++ ((name ++ "_" ++ ts).data).reverse := by
      simp
    rw [e]
    exact startsList_self_append _ _
  have h3 : (name ++ "_").length + 4 ≤ (name ++ "_" ++ ts ++ ".bak").length := by
    show (name ++ "_").data.length + 4 ≤ (name ++ "_" ++ ts ++ ".bak").data.length
    have e : (name ++ "_" ++ ts ++ ".bak").data =
        ((name ++ "_").data ++ ts.data) ++ ".bak".data := rfl
    rw [e]
    simp only [List.length_append, List.length_cons, List.length_nil]
    omega
  unfold globMatch
  rw [h1, h2, decide_eq_true h3]
  rfl

theorem foldl_max_fixed (x : String × FSFile) (xs : List (String × FSFile))
    (h : ∀ y ∈ xs, y.2.mtime < x.2.mtime) :
    xs.foldl (fun best y => if best.2.mtime < y.2.mtime then y else best) x = x := by
  induction xs with
  | nil => rfl
  | cons y ys ih =>
    have hy := h y (by simp)
    have e : (if x.2.mtime < y.2.mtime then y else x) = x := if_neg (by omega)
    simp only [List.foldl_cons, e]
    exact ih (fun z hz => h z (by simp [hz]))

theorem pickLatest_head (x : String × FSFile) (xs : List (String × FSFile))
    (h : ∀ y ∈ xs, y.2.mtime < x.2.mtime) :
    pickLatest (x :: xs) = some x := by
  simp only [pickLatest, foldl_max_fixed x xs h]

theorem leChars_total (as bs : List Char) :
    leChars as bs = true ∨ leChars bs as = true := by
  induction as generalizing bs with
  | nil => exact Or.inl rfl
  | cons a as ih =>
    cases bs with
    | nil => exact Or.inr rfl
    | cons b bs =>
      rcases Nat.lt_trichotomy a.toNat b.toNat with h | h | h
      · exact Or.inl (by simp [leChars, h])
      · have h1 : ¬ a.toNat < b.toNat := by omega
        have h2 : ¬ b.toNat < a.toNat := by omega
        rcases ih bs with hh | hh
        · exact Or.inl (by simp [leChars, h1, h2, hh])
        · exact Or.inr (by simp [leChars, h1, h2, hh])
      · exact Or.inr (by simp [leChars, h])

theorem leChars_head_le (a b : Char) (as bs : List Char)
    (h : leChars (a :: as) (b :: bs) = true) : a.toNat ≤ b.toNat := by
  simp only [leChars] at h
  by_cases h1 : a.toNat < b.toNat
  · omega
  · by_cases h2 : b.toNat < a.toNat
    · rw [if_neg h1, if_pos h2] at h
      exact absurd h (by simp)
    · omega

theorem leChars_head_eq (a b : Char) (as bs : List Char)
    (h : leChars (a :: as) (b :: bs) = true) (he : a.toNat = b.toNat) :
    leChars as bs = true := by
  simp only [leChars] at h
  rw [if_neg (by omega : ¬ a.toNat < b.toNat),
      if_neg (by omega : ¬ b.toNat < a.toNat)] at h
  exact h

theorem leChars_trans (as bs cs : List Char) (h1 : leChars as bs = true)
    (h2 : leChars bs cs = true) : leChars as cs = true := by
  induction as generalizing bs cs with
  | nil => rfl
  | cons a as ih =>
    cases bs with
    | nil => exact absurd h1 (by simp [leChars])
    | cons b bs =>
      cases cs with
      | nil => exact absurd h2 (by simp [leChars])
      | cons c cs =>
        have hab := leChars_head_le a b as bs h1
        have hbc := leChars_head_le b c bs cs h2
        by_cases hac : a.toNat < c.toNat
        · simp [leChars, hac]
        · have hae : a.toNat = b.toNat := by omega
          have hbe : b.toNat = c.toNat := by omega
          have h1' := leChars_head_eq a b as bs h1 hae
          have h2' := leChars_head_eq b c bs cs h2 hbe
          have hca : ¬ c.toNat < a.toNat := by omega
          simp only [leChars, if_neg hac, if_neg hca]
          exact ih bs cs h1' h2'

instance : IsTotal ListedBackup tsLe :=
  ⟨fun a b => leChars_total b.md.timestamp.data a.md.timestamp.data⟩

instance : IsTrans ListedBackup tsLe :=
  ⟨fun a b c hab hbc =>
    leChars_trans c.md.timestamp.data b.md.timestamp.data a.md.timestamp.data hbc hab⟩

theorem envLookup_envSet_self (e : List (String × String)) (k v : String) :
    envLookup (envSet e k v) k = some v := by
  induction e with
  | nil => simp [envSet, envLookup]
  | cons kv rest ih =>
    by_cases h : kv.1 = k
    · simp [envSet, envLookup, h]
    · have hb : (kv.1 == k) = false := by simp [h]
      simp [envSet, envLookup, hb, ih]

theorem envLookup_envSet_ne (e : List (String × String)) (k v k' : String)
    (h : k' ≠ k) : envLookup (envSet e k v) k' = envLookup e k' := by
  induction e with
  | nil =>
    have hb : (k == k') = false := by simp [Ne.symm h]
    simp [envSet, envLookup, hb]
  | cons kv rest ih =>
    cases hb : (kv.1 == k) with
    | true =>
      have hk : kv.1 = k := by simpa using hb
      have h1 : (k == k') = false := by simp [Ne.symm h]
      have h2 : (kv.1 == k') = false := by rw [hk]; exact h1
      simp [envSet, envLookup, hb, h1, h2]
    | false =>
      cases hb2 : (kv.1 == k') with
      | true => simp [envSet, envLookup, hb, hb2]
      | false => simp [envSet, envLookup, hb, hb2, ih]

theorem envLookup_envSet_isSome (e : List (String × String)) (k v k' : String)
    (h : (envLookup (envSet e k v) k').isSome = true) :
    k' = k ∨ (envLookup e k').isSome = true := by
  by_cases hk : k' = k
  · exact Or.inl hk
  · rw [envLookup_envSet_ne e k v k' hk] at h
    exact Or.inr h

theorem envLookup_fwd_isSome (parent : String → Option String) (L : List String)
    (k : String)
    (h : (envLookup (L.filterMap (fun v => (parent v).map (fun x => (v, x)))) k).isSome
        = true) : k ∈ L := by
  induction L with
  | nil => simp [envLookup] at h
  | cons u rest ih =>
    cases hu : parent u with
    | none =>
      simp only [List.filterMap_cons, hu, Option.map_none'] at h
      exact List.mem_cons_of_mem u (ih h)
    | some x =>
      simp only [List.filterMap_cons, hu, Option.map_some'] at h
      by_cases he : u = k
      · exact he ▸ List.mem_cons_self u rest
      · have hb : (u == k) = false := by simp [he]
        simp only [envLookup, hb, Bool.false_eq_true, if_false] at h
        exact List.mem_cons_of_mem u (ih h)

theorem envLookup_fwd_notMem (parent : String → Option String) (L : List String)
    (k : String) (h : k ∉ L) :
    envLookup (L.filterMap (fun v => (parent v).map (fun x => (v, x)))) k = none := by
  induction L with
  | nil => rfl
  | cons u rest ih =>
    have hu : u ≠ k := fun he => h (he ▸ List.mem_cons_self u rest)
    have hrest : k ∉ rest := fun hm => h (List.mem_cons_of_mem u hm)
    cases hp : parent u with
    | none =>
      simp only [List.filterMap_cons, hp, Option.map_none']
      exact ih hrest
    | some x =>
      have hb : (u == k) = false := by simp [hu]
      simp only [List.filterMap_cons, hp, Option.map_some', envLookup, hb,
        Bool.false_eq_true, if_false]
      exact ih hrest

theorem envLookup_fwd_mem (parent : String → Option String) (L : List String)
    (k : String) (hnd : L.Nodup) (hm : k ∈ L) :
    envLookup (L.filterMap (fun v => (parent v).map (fun x => (v, x)))) k
      = parent k := by
  induction L with
  | nil => simp at hm
  | cons u rest ih =>
    have hnotin : u ∉ rest := (List.nodup_cons.mp hnd).1
    have hnd' : rest.Nodup := (List.nodup_cons.mp hnd).2
    by_cases he : u = k
    · subst he
      cases hp : parent u with
      | none =>
        simp only [List.filterMap_cons, hp, Option.map_none']
        rw [envLookup_fwd_notMem parent rest u hnotin]
      | some x =>
        simp only [List.filterMap_cons, hp, Option.map_some']
        simp [envLookup, hp]
    · have hmem : k ∈ rest := by
        cases List.mem_cons.mp hm with
        | inl h => exact absurd h.symm he
        | inr h => exact h
      cases hp : parent u with
      | none =>
        simp only [List.filterMap_cons, hp, Option.map_none']
        exact ih hnd' hmem
      | some x =>
        have hb : (u == k) = false := by simp [he]
        simp only [List.filterMap_cons, hp, Option.map_some', envLookup, hb,
          Bool.false_eq_true, if_false]
        exact ih hnd' hmem

theorem getFile_setFile_self (fs : FS) (p : String) (f : FSFile) :
    (fs.setFile p f).getFile p = some f := by
  simp [FS.getFile, FS.setFile, lookupFile]

/-! ## Claim theorems -/

/-- C1: for every command string rejected by the command policy,
run_sandboxed fails immediately with the SecurityError outcome — the only
outcome constructor that models process creation is never produced, so no
child process is spawned; the policy check precedes any process creation. -/
theorem C1_unsafe_command_blocked_before_spawn
    (parent : String → Option String) (pathExists : String → Bool)
    (sandboxDir command : String)
    (hdenied : is_command_safe command = false) :
    run_sandboxed parent pathExists sandboxDir command =
      .securityError ("Command not allowed: " ++ command) := by
  simp [run_sandboxed, hdenied]

/-- Witness for C1: `run_sandboxed("sudo rm -rf /")` raises the security
error without spawning anything. -/
theorem C1_unsafe_command_blocked_before_spawn_witness :
    is_command_safe "sudo rm -rf /" = false ∧
    run_sandboxed (fun _ => none) (fun _ => false) "/sb" "sudo rm -rf /" =
      .securityError ("Command not allowed: " ++ "sudo rm -rf /") :=
  ⟨by decide,
   C1_unsafe_command_blocked_before_spawn (fun _ => none) (fun _ => false)
     "/sb" "sudo rm -rf /" (by decide)⟩

/-- C2: whenever the backup file that restore_backup operates on has a
sidecar whose recorded digest differs from the digest of the file's current
bytes, the restore returns false and the filesystem — in particular the
original target — is left completely unchanged; no move of any kind
happens. -/
theorem C2_tampered_backup_fails_closed
    (dg : List Nat → Nat) (fsidOf : String → Nat) (uid : Nat) (runUser : String)
    (backupDir tmpName : String) (fs : FS) (originalPath : String)
    (backupArg : Option String) (bp : String) (b : FSFile) (md : Metadata)
    (hsel : resolvedBackupPath backupDir fs originalPath backupArg = some bp)
    (hb : fs.getFile bp = some b)
    (hm : fs.getMeta (replaceSuffixMeta bp) = some md)
    (hne : dg b.content ≠ md.hash) :
    restore_backup dg fsidOf uid runUser backupDir tmpName fs originalPath backupArg
      = ⟨false, fs, true, false, false, false, false⟩ := by
  simp [restore_backup, hsel, hb, hm, hne]

/-- Witness for C2: a store whose only backup was altered after creation
(sidecar records the digest of `[1]`, the copy now holds `[2]`). -/
theorem C2_tampered_backup_fails_closed_witness :
    dgW [2] ≠ dgW [1] ∧
    restore_backup dgW (fun _ => 0) 1000 "u" "/b" "/tmp/t" storeTampered
        "/home/u/.bashrc" (some "/b/shell_configs/.bashrc_20240101_000000.bak")
      = ⟨false, storeTampered, true, false, false, false, false⟩ :=
  ⟨by decide,
   C2_tampered_backup_fails_closed dgW (fun _ => 0) 1000 "u" "/b" "/tmp/t"
     storeTampered "/home/u/.bashrc"
     (some "/b/shell_configs/.bashrc_20240101_000000.bak")
     "/b/shell_configs/.bashrc_20240101_000000.bak"
     ⟨[2], 33188, "u", 100⟩
     ⟨"/home/u/.bashrc", "20240101_000000", dgW [1], 420, "u"⟩
     (by decide) (by decide) (by decide) (by decide)⟩

/-- C4: the claim that restore only ever mutates the target by an atomic
rename of a same-filesystem temporary file fails on the code: the staging
file is created in the system default temporary directory
(`tempfile.NamedTemporaryFile`), and when that directory sits on a
different filesystem from the target, `shutil.move` replaces the target by
a cross-filesystem copy, not a rename — here a successful restore of
`/home/u/.bashrc` on a host whose `/tmp` is a separate filesystem performed
the move without a rename. -/
theorem C4_restore_move_not_atomic_rename :
    (restore_backup dgW fsidW 1000 "u" "/b" "/tmp/t" storeIntact
        "/home/u/.bashrc" none).ok = true ∧
    (restore_backup dgW fsidW 1000 "u" "/b" "/tmp/t" storeIntact
        "/home/u/.bashrc" none).moveHappened = true ∧
    (restore_backup dgW fsidW 1000 "u" "/b" "/tmp/t" storeIntact
        "/home/u/.bashrc" none).movedByRename = false ∧
    ((restore_backup dgW fsidW 1000 "u" "/b" "/tmp/t" storeIntact
        "/home/u/.bashrc" none).fs.getFile "/home/u/.bashrc").map FSFile.content
      = some [2] := by
  decide

/-- C6: the claim that is_path_allowed accepts exactly the resolved paths
equal to or nested under an allowed root fails on the code: the code tests
`str(resolved).startswith(str(root))`, a plain string prefix, so the
sibling path `/tmpfoo` — which is neither equal to nor a path-component
descendant of any allowed root — is accepted. -/
theorem C6_path_policy_string_prefix_bug :
    is_path_allowed some (get_allowed_paths "/home/u") "/tmpfoo" = true ∧
    (get_allowed_paths "/home/u").any
      (fun root => spec_nested_under root "/tmpfoo") = false := by
  decide

/-- C8: is_command_safe normalizes by trim and lower-case and returns false
exactly when some entry of the fixed denylist occurs as a substring of the
normalized text; in particular `"rm -rf /"` and `"SUDO CHMOD -R 777 /"` are
rejected and `"ls -la"` is accepted. -/
theorem C8_command_policy_substring_denylist (command : String) :
    (is_command_safe command = false ↔
      ∃ r ∈ restricted_commands,
        containsList r.data (pyLower (pyStrip command)).data = true) ∧
    is_command_safe "rm -rf /" = false ∧
    is_command_safe "SUDO CHMOD -R 777 /" = false ∧
    is_command_safe "ls -la" = true := by
  refine ⟨?_, by decide, by decide, by decide⟩
  simp [is_command_safe, List.any_eq_true]

/-- C9: when the backup file restore_backup operates on has no sidecar, no
digest comparison against a recorded hash and no permission or ownership
restoration happens, and the restore still succeeds in replacing the
target with the backup's bytes. -/
theorem C9_missing_sidecar_skips_checks
    (dg : List Nat → Nat) (fsidOf : String → Nat) (uid : Nat) (runUser : String)
    (backupDir tmpName : String) (fs : FS) (originalPath : String)
    (backupArg : Option String) (bp : String) (b : FSFile)
    (hsel : resolvedBackupPath backupDir fs originalPath backupArg = some bp)
    (hb : fs.getFile bp = some b)
    (hm : fs.getMeta (replaceSuffixMeta bp) = none) :
    (restore_backup dg fsidOf uid runUser backupDir tmpName fs originalPath backupArg).ok
        = true ∧
    (restore_backup dg fsidOf uid runUser backupDir tmpName fs originalPath
        backupArg).integrityChecked = false ∧
    (restore_backup dg fsidOf uid runUser backupDir tmpName fs originalPath
        backupArg).chmodDone = false ∧
    (restore_backup dg fsidOf uid runUser backupDir tmpName fs originalPath
        backupArg).chownDone = false ∧
    ((restore_backup dg fsidOf uid runUser backupDir tmpName fs originalPath
        backupArg).fs.getFile originalPath).map FSFile.content = some b.content := by
  have hr : restore_backup dg fsidOf uid runUser backupDir tmpName fs originalPath backupArg
      = restoreStage dg fsidOf uid runUser tmpName fs originalPath b none := by
    simp [restore_backup, hsel, hb, hm]
  rw [hr]
  have hs : restoreStage dg fsidOf uid runUser tmpName fs originalPath b none
      = ⟨true, ((fs.setFile tmpName ⟨b.content, b.mode, runUser, b.mtime⟩).removeFile
          tmpName).setFile originalPath ⟨b.content, b.mode, runUser, b.mtime⟩,
         false, false, false, true, decide (fsidOf tmpName = fsidOf originalPath)⟩ := by
    simp [restoreStage]
  rw [hs]
  refine ⟨rfl, rfl, rfl, rfl, ?_⟩
  rw [getFile_setFile_self]
  rfl

/-- Witness for C9: a store whose only backup has no sidecar; restore
succeeds and copies the backup bytes to the target. -/
theorem C9_missing_sidecar_skips_checks_witness :
    (restore_backup dgW (fun _ => 0) 1000 "u" "/b" "/tmp/t" storeNoSidecar
        "/home/u/.bashrc"
        (some "/b/shell_configs/.bashrc_20240101_000000.bak")).ok = true ∧
    ((restore_backup dgW (fun _ => 0) 1000 "u" "/b" "/tmp/t" storeNoSidecar
        "/home/u/.bashrc"
        (some "/b/shell_configs/.bashrc_20240101_000000.bak")).fs.getFile
        "/home/u/.bashrc").map FSFile.content = some [5] :=
  have h := C9_missing_sidecar_skips_checks dgW (fun _ => 0) 1000 "u" "/b" "/tmp/t"
    storeNoSidecar "/home/u/.bashrc"
    (some "/b/shell_configs/.bashrc_20240101_000000.bak")
    "/b/shell_configs/.bashrc_20240101_000000.bak"
    ⟨[5], 33188, "u", 90⟩ (by decide) (by decide) (by decide)
  ⟨h.1, h.2.2.2.2⟩

/-- C7: the claim that the child environment contains only variables from
the fixed allow-list fails on the code: run_sandboxed additionally inserts
`SANDBOX_DIR` (src/security_manager.py:268), which is not in the
allow-list, into the environment passed to the child. -/
theorem C7_env_counterexample :
    run_sandboxed (fun _ => none) (fun _ => false) "/sb" "ls -la" =
      .completed [("PATH", ""), ("SANDBOX_DIR", "/sb")] "/sb" ∧
    "SANDBOX_DIR" ∉ allowed_env_vars := by
  decide

/-- C7 (amended): the environment passed to every sandboxed child contains
only the allow-listed variables plus `SANDBOX_DIR`; each allow-listed
variable other than PATH is forwarded exactly when present in the parent
environment and with the parent's value; PATH is always overwritten with
the fixed ordered list of system binary directories filtered to those that
exist on the host; and SANDBOX_DIR holds the ephemeral sandbox
directory. -/
theorem C7_env_allowlist_amended
    (parent : String → Option String) (pathExists : String → Bool)
    (sandboxDir command : String) (env : List (String × String)) (cwd : String)
    (hrun : run_sandboxed parent pathExists sandboxDir command = .completed env cwd) :
    (∀ k, (envLookup env k).isSome = true → k ∈ allowed_env_vars ∨ k = "SANDBOX_DIR") ∧
    (∀ v, v ∈ allowed_env_vars → v ≠ "PATH" → envLookup env v = parent v) ∧
    envLookup env "PATH" = some (joinColon (safe_paths.filter pathExists)) ∧
    envLookup env "SANDBOX_DIR" = some sandboxDir := by
  cases hsafe : is_command_safe command with
  | false =>
    rw [run_sandboxed, hsafe] at hrun
    simp at hrun
  | true =>
    rw [run_sandboxed, hsafe] at hrun
    simp only [if_true, SandboxOutcome.completed.injEq] at hrun
    obtain ⟨henv, _⟩ := hrun
    subst henv
    refine ⟨?_, ?_, ?_, ?_⟩
    · intro k hk
      rcases envLookup_envSet_isSome _ "SANDBOX_DIR" sandboxDir k hk with h | h
      · exact Or.inr h
      · simp only [get_safe_environment] at h
        rcases envLookup_envSet_isSome _ "PATH"
            (joinColon (safe_paths.filter pathExists)) k h with h2 | h2
        · subst h2
          exact Or.inl (by decide)
        · exact Or.inl (envLookup_fwd_isSome parent allowed_env_vars k h2)
    · intro v hv hvp
      have hvs : v ≠ "SANDBOX_DIR" := by
        intro he
        subst he
        exact absurd hv (by decide)
      rw [envLookup_envSet_ne _ _ _ _ hvs]
      simp only [get_safe_environment]
      rw [envLookup_envSet_ne _ _ _ _ hvp]
      exact envLookup_fwd_mem parent allowed_env_vars v (by decide) hv
    · have hne : ("PATH" : String) ≠ "SANDBOX_DIR" := by decide
      rw [envLookup_envSet_ne _ _ _ _ hne]
      simp only [get_safe_environment]
      exact envLookup_envSet_self _ _ _
    · exact envLookup_envSet_self _ _ _

/-- Witness for C7 (amended): a parent with only HOME set and only `/bin`
existing on the host. -/
theorem C7_env_allowlist_amended_witness :
    envLookup [("HOME", "/home/u"), ("PATH", "/bin"), ("SANDBOX_DIR", "/sb")] "PATH"
      = some (joinColon (safe_paths.filter (fun q => q == "/bin"))) ∧
    envLookup [("HOME", "/home/u"), ("PATH", "/bin"), ("SANDBOX_DIR", "/sb")] "SANDBOX_DIR"
      = some "/sb" :=
  (C7_env_allowlist_amended
    (fun v => if v == "HOME" then some "/home/u" else none)
    (fun q => q == "/bin") "/sb" "ls -la"
    [("HOME", "/home/u"), ("PATH", "/bin"), ("SANDBOX_DIR", "/sb")] "/sb"
    (by decide)).2.2

/-- C10: a record-less restore searches exactly one category directory,
chosen by whether `rc` occurs in the target's name; a backup created under
the default `shell_configs` category for a file whose name does not contain
`rc` lands in `shell_configs` but the subsequent record-less restore
searches only `system_configs`, finds nothing there, and returns false,
leaving the filesystem unchanged. -/
theorem C10_rc_category_mismatch
    (dg : List Nat → Nat) (fsidOf : String → Nat) (uid : Nat) (runUser : String)
    (backupDir tmpName ts : String) (fs : FS) (p : String) (f : FSFile)
    (hf : fs.getFile p = some f)
    (hrc : containsList "rc".data (lastNameChars p.data) = false)
    (hts : ts.data.all notSlash = true)
    (hsys : ∀ e ∈ fs.files, ¬(inDir (backupDir ++ "/" ++ "system_configs") e.1 = true ∧
        globMatch (strName p) (strName e.1) = true)) :
    ((create_backup dg backupDir ts fs p "shell_configs").1).map
        (fun bp => inDir (backupDir ++ "/" ++ "shell_configs") bp) = some true ∧
    restore_backup dg fsidOf uid runUser backupDir tmpName
        (create_backup dg backupDir ts fs p "shell_configs").2 p none
      = ⟨false, (create_backup dg backupDir ts fs p "shell_configs").2,
         false, false, false, false, false⟩ := by
  have hall : ((strName p ++ "_" ++ ts ++ ".bak").data).all notSlash = true := by
    simp only [data_append, List.all_append, Bool.and_eq_true]
    exact ⟨⟨⟨all_notSlash_lastName p.data, by decide⟩, hts⟩, by decide⟩
  obtain ⟨bp, hbp⟩ : ∃ x, x = backupDir ++ "/" ++ "shell_configs" ++ "/" ++
      (strName p ++ "_" ++ ts ++ ".bak") := ⟨_, rfl⟩
  obtain ⟨md, hmd⟩ : ∃ m : Metadata, m = ⟨p, ts, dg f.content, f.mode % 512, f.owner⟩ :=
    ⟨_, rfl⟩
  have hcreate : create_backup dg backupDir ts fs p "shell_configs" =
      (some bp, (fs.setFile bp f).setMeta (replaceSuffixMeta bp) md) := by
    rw [hbp, hmd]
    simp [create_backup, hf]
  rw [hcreate]
  constructor
  · simp only [Option.map_some', Option.some.injEq]
    rw [hbp]
    exact inDir_append _ _ hall
  · have hfiles2 : ((fs.setFile bp f).setMeta (replaceSuffixMeta bp) md).files =
        (bp, f) :: fs.files.filter (fun e => !(e.1 == bp)) := rfl
    have hnotin : inDir (backupDir ++ "/" ++ "system_configs") bp = false := by
      rw [hbp]
      exact inDir_append_ne backupDir "shell_configs" "system_configs" _ hall (by decide)
    have hsel : selectBackupPath backupDir
        ((fs.setFile bp f).setMeta (replaceSuffixMeta bp) md) p = none := by
      simp only [selectBackupPath, hrc]
      have hcands : (dirEntries ((fs.setFile bp f).setMeta (replaceSuffixMeta bp) md)
          (backupDir ++ "/" ++ "system_configs")).filter
            (fun e => globMatch (strName p) (strName e.1)) = [] := by
        rw [List.filter_eq_nil_iff]
        intro e he
        have h1 := List.mem_filter.mp he
        rcases List.mem_cons.mp (by rw [hfiles2] at h1; exact h1.1) with heq | hmem
        · rw [heq] at h1
          rw [hnotin] at h1
          exact absurd h1.2 (by simp)
        · have h2 := List.mem_filter.mp hmem
          intro hg
          have h3 := List.mem_filter.mp he
          exact hsys e h2.1 ⟨h3.2, hg⟩
      simp only [dirEntries] at hcands
      simp [dirEntries, hcands, pickLatest]
    simp [restore_backup, resolvedBackupPath, hsel]

/-- Witness for C10: a file named `notes` (no `rc`) with an empty backup
store; the backup goes to shell_configs, the restore searches
system_configs and fails. -/
theorem C10_rc_category_mismatch_witness :
    ((create_backup dgW "/b" "20240101_000000" storeNotes "/home/u/notes"
        "shell_configs").1).map
        (fun bp => inDir ("/b" ++ "/" ++ "shell_configs") bp) = some true ∧
    restore_backup dgW (fun _ => 0) 1000 "u" "/b" "/tmp/t"
        (create_backup dgW "/b" "20240101_000000" storeNotes "/home/u/notes"
          "shell_configs").2 "/home/u/notes" none
      = ⟨false, (create_backup dgW "/b" "20240101_000000" storeNotes "/home/u/notes"
          "shell_configs").2, false, false, false, false, false⟩ :=
  C10_rc_category_mismatch dgW (fun _ => 0) 1000 "u" "/b" "/tmp/t" "20240101_000000"
    storeNotes "/home/u/notes" ⟨[7], 33188, "u", 100⟩
    (by decide) (by decide) (by decide) (by decide)

/-- C5: the claim that a record-less restore selects exactly
`list_backups()[0]` fails on the code: restore does not consult
list_backups at all — it globs a single category directory (chosen by the
`rc` rule) and takes the entry with the greatest mtime.  Here
`list_backups` for `/home/u/.bashrc` is nonempty (its index 0 exists, a
backup stored under system_configs), yet the record-less restore selects
nothing and returns false. -/
theorem C5_restore_not_list_index0 :
    (list_backups storeSystemOnly "/b" (some "/home/u/.bashrc")).length = 1 ∧
    restore_backup dgW (fun _ => 0) 1000 "u" "/b" "/tmp/t" storeSystemOnly
        "/home/u/.bashrc" none
      = ⟨false, storeSystemOnly, false, false, false, false, false⟩ := by
  decide

/-- C5 (amended): list_backups returns its records sorted by timestamp in
descending order (weakly in general, strictly when the timestamps are
pairwise distinct), but a record-less restore does not select
`list_backups()[0]`: it selects the glob-matching entry with the greatest
mtime inside the single category chosen by the `rc`-in-name rule, and when
that category holds no match the restore fails even if list_backups is
nonempty. -/
theorem C5_list_order_amended (fs : FS) (backupDir : String) (filt : Option String) :
    List.Sorted tsLe (list_backups fs backupDir filt) ∧
    ((list_backups fs backupDir filt).Pairwise
        (fun a b => a.md.timestamp ≠ b.md.timestamp) →
      (list_backups fs backupDir filt).Pairwise
        (fun a b => strLe b.md.timestamp a.md.timestamp = true ∧
          b.md.timestamp ≠ a.md.timestamp)) ∧
    (∀ dg fsidOf uid runUser tmpName p,
      selectBackupPath backupDir fs p = none →
      restore_backup dg fsidOf uid runUser backupDir tmpName fs p none =
        ⟨false, fs, false, false, false, false, false⟩) := by
  refine ⟨List.sorted_insertionSort tsLe _, ?_, ?_⟩
  · intro hne
    have hs : List.Pairwise tsLe (list_backups fs backupDir filt) :=
      List.sorted_insertionSort tsLe _
    exact (hs.and hne).imp (fun h => ⟨h.1, fun he => h.2 he.symm⟩)
  · intro dg fsidOf uid runUser tmpName p hsel
    simp [restore_backup, resolvedBackupPath, hsel]

/-- Witness for C5 (amended): two backups at distinct timestamps come out
strictly descending, and a record-less restore for a target with no
matching backup in its category fails. -/
theorem C5_list_order_amended_witness :
    (list_backups storeTwoBackups "/b" none).Pairwise
        (fun a b => strLe b.md.timestamp a.md.timestamp = true ∧
          b.md.timestamp ≠ a.md.timestamp) ∧
    restore_backup dgW (fun _ => 0) 1000 "u" "/b" "/tmp/t" storeTwoBackups
        "/h/x" none
      = ⟨false, storeTwoBackups, false, false, false, false, false⟩ :=
  have h := C5_list_order_amended storeTwoBackups "/b" none
  ⟨h.2.1 (by decide), h.2.2 dgW (fun _ => 0) 1000 "u" "/tmp/t" "/h/x" (by decide)⟩

theorem restore_with_meta_ok
    (dg : List Nat → Nat) (fsidOf : String → Nat) (uid : Nat) (runUser : String)
    (backupDir tmpName : String) (fs : FS) (p : String) (arg : Option String)
    (bp : String) (b : FSFile) (md : Metadata)
    (hsel : resolvedBackupPath backupDir fs p arg = some bp)
    (hb : fs.getFile bp = some b)
    (hm : fs.getMeta (replaceSuffixMeta bp) = some md)
    (hhash : dg b.content = md.hash) :
    (restore_backup dg fsidOf uid runUser backupDir tmpName fs p arg).ok = true ∧
    ((restore_backup dg fsidOf uid runUser backupDir tmpName fs p arg).fs.getFile p).map
        FSFile.content = some b.content := by
  have hr : restore_backup dg fsidOf uid runUser backupDir tmpName fs p arg
      = restoreStage dg fsidOf uid runUser tmpName fs p b (some md) := by
    simp [restore_backup, hsel, hb, hm, hhash]
  rw [hr]
  have hs : restoreStage dg fsidOf uid runUser tmpName fs p b (some md)
      = ⟨true,
         (((fs.setFile tmpName ⟨b.content, b.mode, runUser, b.mtime⟩).setFile tmpName
             ⟨b.content, md.permissions, if uid = 0 then md.owner else runUser,
              b.mtime⟩).removeFile tmpName).setFile p
           ⟨b.content, md.permissions, if uid = 0 then md.owner else runUser, b.mtime⟩,
         true, true, decide (uid = 0), true,
         decide (fsidOf tmpName = fsidOf p)⟩ := by
    simp [restoreStage]
  rw [hs]
  refine ⟨rfl, ?_⟩
  rw [getFile_setFile_self]
  rfl

/-- C3: the round-trip claim fails on the code as stated: for an existing
readable file whose name does not contain `rc` (here `/home/u/notes`),
create_backup with the default `shell_configs` category succeeds, but the
immediately following record-less restore returns false, because restore
searches only the `system_configs` directory for such names. -/
theorem C3_roundtrip_counterexample :
    ((create_backup dgW "/b" "20240101_000000" storeNotes "/home/u/notes"
        "shell_configs").1).isSome = true ∧
    (restore_backup dgW (fun _ => 0) 1000 "u" "/b" "/tmp/t"
        (create_backup dgW "/b" "20240101_000000" storeNotes "/home/u/notes"
          "shell_configs").2 "/home/u/notes" none).ok = false := by
  decide

/-- C3 (amended): for every existing readable file whose name contains
`rc`, create_backup (default category) followed immediately by a
record-less restore succeeds and reproduces byte-identical content with a
digest identical to the original's digest at backup time, provided every
pre-existing glob-matching entry of the shell_configs directory is older
(smaller mtime) than the file. -/
theorem C3_roundtrip_amended
    (dg : List Nat → Nat) (fsidOf : String → Nat) (uid : Nat) (runUser : String)
    (backupDir tmpName ts : String) (fs : FS) (p : String) (f : FSFile)
    (hf : fs.getFile p = some f)
    (hrc : containsList "rc".data (lastNameChars p.data) = true)
    (hts : ts.data.all notSlash = true)
    (hmax : ∀ e ∈ fs.files, inDir (backupDir ++ "/" ++ "shell_configs") e.1 = true →
        globMatch (strName p) (strName e.1) = true → e.2.mtime < f.mtime) :
    ((create_backup dg backupDir ts fs p "shell_configs").1).isSome = true ∧
    (restore_backup dg fsidOf uid runUser backupDir tmpName
        (create_backup dg backupDir ts fs p "shell_configs").2 p none).ok = true ∧
    ((restore_backup dg fsidOf uid runUser backupDir tmpName
        (create_backup dg backupDir ts fs p "shell_configs").2 p none).fs.getFile p).map
        FSFile.content = some f.content ∧
    ((restore_backup dg fsidOf uid runUser backupDir tmpName
        (create_backup dg backupDir ts fs p "shell_configs").2 p none).fs.getFile p).map
        (fun g => dg g.content) = some (dg f.content) := by
  have hall : ((strName p ++ "_" ++ ts ++ ".bak").data).all notSlash = true := by
    simp only [data_append, List.all_append, Bool.and_eq_true]
    exact ⟨⟨⟨all_notSlash_lastName p.data, by decide⟩, hts⟩, by decide⟩
  obtain ⟨bp, hbp⟩ : ∃ x, x = backupDir ++ "/" ++ "shell_configs" ++ "/" ++
      (strName p ++ "_" ++ ts ++ ".bak") := ⟨_, rfl⟩
  obtain ⟨md, hmd⟩ : ∃ m : Metadata, m = ⟨p, ts, dg f.content, f.mode % 512, f.owner⟩ :=
    ⟨_, rfl⟩
  have hcreate : create_backup dg backupDir ts fs p "shell_configs" =
      (some bp, (fs.setFile bp f).setMeta (replaceSuffixMeta bp) md) := by
    rw [hbp, hmd]
    simp [create_backup, hf]
  have hfiles2 : ((fs.setFile bp f).setMeta (replaceSuffixMeta bp) md).files =
      (bp, f) :: fs.files.filter (fun e => !(e.1 == bp)) := rfl
  have hmetas2 : ((fs.setFile bp f).setMeta (replaceSuffixMeta bp) md).metas =
      (replaceSuffixMeta bp, md) ::
        fs.metas.filter (fun e => !(e.1 == replaceSuffixMeta bp)) := rfl
  have hin : inDir (backupDir ++ "/" ++ "shell_configs") bp = true := by
    rw [hbp]
    exact inDir_append _ _ hall
  have hglob : globMatch (strName p) (strName bp) = true := by
    rw [hbp, strName_append _ _ hall]
    exact globMatch_self _ _
  have hsel : selectBackupPath backupDir
      ((fs.setFile bp f).setMeta (replaceSuffixMeta bp) md) p = some bp := by
    simp only [selectBackupPath, hrc, if_true, dirEntries, hfiles2]
    have hcands : List.filter (fun e => globMatch (strName p) (strName e.1))
          (List.filter (fun e => inDir (backupDir ++ "/" ++ "shell_configs") e.1)
            ((bp, f) :: List.filter (fun e => !(e.1 == bp)) fs.files))
        = (bp, f) :: List.filter (fun e => globMatch (strName p) (strName e.1))
            (List.filter (fun e => inDir (backupDir ++ "/" ++ "shell_configs") e.1)
              (List.filter (fun e => !(e.1 == bp)) fs.files)) := by
      simp [List.filter_cons, hin, hglob]
    rw [hcands, pickLatest_head]
    · rfl
    · intro y hy
      have hy1 := List.mem_filter.mp hy
      have hy2 := List.mem_filter.mp hy1.1
      have hy3 := List.mem_filter.mp hy2.1
      exact hmax y hy3.1 hy2.2 hy1.2
  have hgb : ((fs.setFile bp f).setMeta (replaceSuffixMeta bp) md).getFile bp
      = some f := by
    simp [FS.getFile, hfiles2, lookupFile]
  have hgm : ((fs.setFile bp f).setMeta (replaceSuffixMeta bp) md).getMeta
      (replaceSuffixMeta bp) = some md := by
    simp [FS.getMeta, hmetas2, lookupMeta]
  have hhash : dg f.content = md.hash := by rw [hmd]
  have hsel' : resolvedBackupPath backupDir
      ((fs.setFile bp f).setMeta (replaceSuffixMeta bp) md) p none = some bp := by
    simp [resolvedBackupPath, hsel]
  have hmain := restore_with_meta_ok dg fsidOf uid runUser backupDir tmpName
    ((fs.setFile bp f).setMeta (replaceSuffixMeta bp) md) p none bp f md
    hsel' hgb hgm hhash
  rw [hcreate]
  refine ⟨rfl, hmain.1, hmain.2, ?_⟩
  cases hgf : (restore_backup dg fsidOf uid runUser backupDir tmpName
      ((fs.setFile bp f).setMeta (replaceSuffixMeta bp) md) p none).fs.getFile p with
  | none =>
    rw [hgf] at hmain
    exact absurd hmain.2 (by simp)
  | some g =>
    have hg := hmain.2
    rw [hgf] at hg
    simp only [Option.map_some', Option.some.injEq] at hg
    simp [hgf, hg]

/-- Witness for C3 (amended): `/home/u/.bashrc` with content `[3, 4]` in an
otherwise empty store round-trips byte-identically. -/
theorem C3_roundtrip_amended_witness :
    ((create_backup dgW "/b" "20240101_000000" storeBashrc "/home/u/.bashrc"
        "shell_configs").1).isSome = true ∧
    (restore_backup dgW (fun _ => 0) 1000 "u" "/b" "/tmp/t"
        (create_backup dgW "/b" "20240101_000000" storeBashrc "/home/u/.bashrc"
          "shell_configs").2 "/home/u/.bashrc" none).ok = true ∧
    ((restore_backup dgW (fun _ => 0) 1000 "u" "/b" "/tmp/t"
        (create_backup dgW "/b" "20240101_000000" storeBashrc "/home/u/.bashrc"
          "shell_configs").2 "/home/u/.bashrc" none).fs.getFile
        "/home/u/.bashrc").map FSFile.content = some [3, 4] ∧
    ((restore_backup dgW (fun _ => 0) 1000 "u" "/b" "/tmp/t"
        (create_backup dgW "/b" "20240101_000000" storeBashrc "/home/u/.bashrc"
          "shell_configs").2 "/home/u/.bashrc" none).fs.getFile
        "/home/u/.bashrc").map (fun g => dgW g.content) = some (dgW [3, 4]) :=
  C3_roundtrip_amended dgW (fun _ => 0) 1000 "u" "/b" "/tmp/t" "20240101_000000"
    storeBashrc "/home/u/.bashrc" ⟨[3, 4], 33188, "u", 100⟩
    (by decide) (by decide) (by decide) (by decide)
